import Mathlib

/-!
Verification of the Rust web crawler in `src/src/main.rs`.

The crawler's pure logic (`is_same_domain`, `depth_control`, `get_url`,
`get_links`) and the crawl loop of `main` are shallowly embedded below.
External collaborators are modelled as data:
* the `url` crate's parser/joiner, restricted to the `http`/`https` scheme
  family actually followed by the crawler (`parseUrl`, `joinUrl`);
* `scraper`'s HTML parsing, as the list of `href` attributes of the anchor
  elements of a document in document order (`Html`);
* the HTTP transport, as a finite association list from URL to fetch
  outcome (`Site`, `fetch`); `none` is any `reqwest` fetch error.
-/

namespace WebCrawler

/-!
String primitives. Rust's `&str` methods (`starts_with`, `strip_prefix`,
`split`, ...) are modelled over the character list of a `String`
(`String.data`), so that every definition reduces inside the kernel. All the
strings involved are ASCII, where character counts and Rust's byte offsets
agree.
-/

namespace Str

/-- Rust `s.starts_with(p)`. -/
def startsWith (s p : String) : Bool := p.data.isPrefixOf s.data

/-- Rust `s.ends_with(p)`. -/
def endsWith (s p : String) : Bool := p.data.isSuffixOf s.data

/-- Drop the first `n` characters. -/
def drop (s : String) (n : Nat) : String := ⟨s.data.drop n⟩

/-- Drop the last `n` characters. -/
def dropRight (s : String) (n : Nat) : String := ⟨s.data.take (s.data.length - n)⟩

/-- Longest prefix whose characters satisfy `p`. -/
def takeWhile (s : String) (p : Char → Bool) : String := ⟨s.data.takeWhile p⟩

def length (s : String) : Nat := s.data.length

def isEmpty (s : String) : Bool := s.data.isEmpty

/-- Split a character list at every occurrence of `c` (Rust `str::split`):
the result always has one more part than there are separators, so the empty
list yields `[[]]`. -/
def splitOnCharAux (c : Char) : List Char → List (List Char)
  | [] => [[]]
  | x :: xs =>
    let r := splitOnCharAux c xs
    if x == c then [] :: r
    else
      match r with
      | [] => [[x]]
      | y :: ys => (x :: y) :: ys

/-- Rust `s.split(c)`, as a list of strings. -/
def splitOnChar (s : String) (c : Char) : List String :=
  (splitOnCharAux c s.data).map (fun l => ⟨l⟩)

end Str

/-- Model of a successfully parsed absolute URL, as produced by the `url`
crate (`url::Url`) for the special schemes `http` and `https`: a scheme, a
non-empty host, and `Url::path_segments()` (which is `some` for these
schemes; kept as an `Option` to mirror the crate's API, which returns `None`
for cannot-be-a-base URLs). Query and fragment are dropped; they play no
role in the functions under verification. -/
structure ParsedUrl where
  scheme : String
  host : String
  path_segments : Option (List String)
deriving Repr, DecidableEq

/-- Parse `s` as `scheme ++ "://" ++ host ++ path`: the host runs to the
first `/`, `?` or `#` and must be non-empty; the path is split into segments
exactly as `Url::path_segments` does (`path[1..].split('/')`, with the empty
path normalised to `/`). -/
def parseWithScheme (scheme s : String) : Option ParsedUrl :=
  if Str.startsWith s (scheme ++ "://") then
    let rest := Str.drop s (Str.length scheme + 3)
    let host := Str.takeWhile rest (fun c => c != '/' && c != '?' && c != '#')
    if Str.isEmpty host then none
    else
      let after := Str.drop rest (Str.length host)
      let path := Str.takeWhile after (fun c => c != '?' && c != '#')
      let path := if Str.isEmpty path then "/" else path
      some { scheme := scheme, host := host,
             path_segments := some (Str.splitOnChar (Str.drop path 1) '/') }
  else none

/-- Model of `url::Url::parse`, restricted to the `http`/`https` URLs the
crawler follows. A string parses iff it starts with `http://` or `https://`
followed by a non-empty host; anything else (e.g. `"notaurl"`) fails to
parse, as in the crate (`RelativeUrlWithoutBase` / `EmptyHost`). -/
def parseUrl (s : String) : Option ParsedUrl :=
  match parseWithScheme "http" s with
  | some u => some u
  | none => parseWithScheme "https" s

def serializePath (segs : List String) : String :=
  match segs with
  | [] => "/"
  | _ => segs.foldl (fun acc s => acc ++ "/" ++ s) ""

/-- Serialisation of a parsed URL, as the crate renders it (`https://h` is
rendered `https://h/`). -/
def serializeUrl (u : ParsedUrl) : String :=
  u.scheme ++ "://" ++ u.host ++ serializePath (u.path_segments.getD [""])

/-- Remove `.` and `..` path segments (RFC 3986 dot-segment removal on a
segment list, as performed by `url::Url::join`). -/
def removeDots (segs : List String) : List String :=
  segs.foldl
    (fun acc seg =>
      if seg == "." then acc
      else if seg == ".." then acc.dropLast
      else acc ++ [seg]) []

/-- Model of `url::Url::join` on an `http`/`https` base: protocol-relative
references re-parse against the base's scheme; absolute-path references
replace the whole path; other references merge with the base path minus its
last segment; dot segments are removed. Matches the source's own doc
example `join("https://example.com/blog/", "../about.html") =
"https://example.com/about.html"`. -/
def joinUrl (base : ParsedUrl) (sub : String) : Option String :=
  if Str.startsWith sub "//" then
    (parseUrl (base.scheme ++ ":" ++ sub)).map serializeUrl
  else if Str.startsWith sub "/" then
    some (base.scheme ++ "://" ++ base.host ++
      serializePath (removeDots (Str.splitOnChar (Str.drop sub 1) '/')))
  else if Str.isEmpty sub then
    some (serializeUrl base)
  else
    let subPath := Str.takeWhile sub (fun c => c != '?' && c != '#')
    let merged := (base.path_segments.getD [""]).dropLast ++ Str.splitOnChar subPath '/'
    some (base.scheme ++ "://" ++ base.host ++ serializePath (removeDots merged))

/-- `is_same_domain` from `src/src/main.rs:143`: compare the optional parsed
hosts with `==`. The crate's `.ok().and_then(|u| u.host_str()...)` is
modelled by `Option.map` over the parse result (every URL of the model's
scheme family has a host). -/
def is_same_domain (root candidate : String) : Bool :=
  let root_host := (parseUrl root).map (fun u => u.host)
  let candidate_host := (parseUrl candidate).map (fun u => u.host)
  root_host == candidate_host

/-- `depth_control` from `src/src/main.rs:152`: depth 0 disables the check;
a parse failure is permissively `false`; otherwise count non-empty path
segments (`unwrap_or(-1)` when `path_segments()` is `None`) and return
`true` exactly when the count equals `depth`. -/
def depth_control (url : String) (depth : Int) : Bool :=
  if depth == 0 then false
  else
    match parseUrl url with
    | none => false
    | some parsed_url =>
      let count : Int :=
        (parsed_url.path_segments.map
          (fun segments => ((segments.filter (fun s => !s.isEmpty)).length : Int))).getD (-1)
      if count == depth then true else false

/-- Rust's `root.strip_suffix("/").unwrap_or(root)`: remove exactly one
trailing slash when present. -/
def stripSuffixSlash (s : String) : String :=
  if Str.endsWith s "/" then Str.dropRight s 1 else s

/-- Rust's `sub.strip_prefix("/").unwrap_or(sub)`: remove exactly one
leading slash when present. -/
def stripPrefixSlash (s : String) : String :=
  if Str.startsWith s "/" then Str.drop s 1 else s

/-- `get_url` from `src/src/main.rs:176`: absolute `http(s)` hrefs pass
through; otherwise parse the base and join (`Result::and_then` becomes
`Option.bind`); on failure fall back to naive concatenation. -/
def get_url (root sub : String) : String :=
  if Str.startsWith sub "https://" || Str.startsWith sub "http://" then sub
  else
    match (parseUrl root).bind (fun base => joinUrl base sub) with
    | some resolved => resolved
    | none => stripSuffixSlash root ++ "/" ++ stripPrefixSlash sub

/-- A parsed HTML document, modelled as `scraper` presents it to `get_links`:
the optional `href` attribute of each `<a>` element, in document order. -/
abbrev Html := List (Option String)

/-- `get_links` from `src/src/main.rs:196`: resolve each present `href`
against `url` and append it to `results` unless already present anywhere in
`results` (the vector is shared across calls). -/
def get_links (html : Html) (url : String) (results : List String) : List String :=
  html.foldl
    (fun acc anchor =>
      match anchor with
      | some val =>
        let absolute := get_url url val
        if acc.contains absolute then acc else acc ++ [absolute]
      | none => acc) results

/-!
The crawl engine of `main` (`src/src/main.rs:31`). CLI parsing, logging and
file I/O are glue; the `Config` fields that influence the engine and the
output section are kept. The output `File` handles are modelled by a format
tag, and what `main` writes to them by the list of URLs serialised.
-/

inductive OutputFormat where
  | plainText
  | json
deriving Repr, DecidableEq

/-- The `Config` struct of `src/src/main.rs:17` (the `File` inside
`OutputFormat` is I/O and is dropped). -/
structure Config where
  root_url : String
  depth : Int
  verbose : Bool
  response_error : Bool
  output_file : Option OutputFormat

/-- A finite website: each URL maps to `some html` (a 2xx body, given as its
anchor hrefs) or `none` (any `reqwest` fetch error). URLs not listed also
fail to fetch. -/
abbrev Site := List (String × Option Html)

/-- Model of `get_html` (`src/src/main.rs:133`): `none` is `Err(_)` of any
kind (non-2xx status, timeout, connection failure, ...). -/
def fetch (site : Site) (url : String) : Option Html :=
  match site.find? (fun p => p.1 == url) with
  | some p => p.2
  | none => none

/-- The mutable state of `main`'s crawl loop: `visited: HashSet<String>`
(modelled as a duplicate-free list in insertion order; only membership is
observable), `to_visit: Vec<String>` and `error_links: Vec<String>`. -/
structure CrawlState where
  visited : List String
  to_visit : List String
  error_links : List String
deriving Repr, DecidableEq

/-- `HashSet::insert`: a no-op when the element is already present. -/
def hsInsert (s : List String) (x : String) : List String :=
  if s.contains x then s else s ++ [x]

/-- `HashSet::remove`. -/
def hsRemove (s : List String) (x : String) : List String :=
  s.filter (fun y => y != x)

/-- The body of the `for link in current_layer` loop
(`src/src/main.rs:50-86`). The `config.verbose` logging at lines 58-62 and
80-83 has no effect on the state and is omitted. -/
def processLink (site : Site) (cfg : Config) (st : CrawlState) (link : String) :
    CrawlState :=
  if st.error_links.contains link then
    { st with visited := hsRemove st.visited link }
  else if st.visited.contains link || !is_same_domain cfg.root_url link
      || depth_control link cfg.depth then
    { st with visited := hsInsert st.visited link }
  else
    match fetch site link with
    | some html =>
      { st with visited := hsInsert st.visited link,
                to_visit := get_links html link st.to_visit }
    | none =>
      { st with visited := hsRemove st.visited link,
                error_links := st.error_links ++ [link] }

/-- One iteration of the `while !to_visit.is_empty()` loop
(`src/src/main.rs:46-87`): snapshot the frontier, clear it, process every
link of the snapshot in order. -/
def processLayer (site : Site) (cfg : Config) (st : CrawlState) : CrawlState :=
  st.to_visit.foldl (processLink site cfg) { st with to_visit := [] }

/-- The layer loop itself, with explicit fuel: runs `processLayer` while the
frontier is non-empty and fuel remains. -/
def crawl (site : Site) (cfg : Config) : Nat → CrawlState → CrawlState
  | 0, st => st
  | fuel + 1, st =>
    if st.to_visit.isEmpty then st
    else crawl site cfg fuel (processLayer site cfg st)

/-- The state after the seeding phase (`src/src/main.rs:37-43`): `visited`
and `error_links` empty, frontier = links of the root page. -/
def initState (cfg : Config) (rootHtml : Html) : CrawlState :=
  { visited := [], to_visit := get_links rootHtml cfg.root_url [], error_links := [] }

/-- The `-e` post-processing (`src/src/main.rs:108-113`): insert every error
link into `visited`. -/
def foldErrors (st : CrawlState) : List String :=
  st.error_links.foldl hsInsert st.visited

/-- Observable outcome of a run: the URLs written to the output file (when
one was requested), the visited set after the `-e` fold (what the final
log prints), and the error links. -/
structure RunResult where
  fileUrls : Option (List String)
  finalVisited : List String
  error_links : List String
deriving Repr, DecidableEq

/-- `main` after argument parsing (`src/src/main.rs:37-128`): fetch the root
(failure aborts the run: `none`), seed, crawl, then — in the source's order —
write the output file from `visited` (lines 89-106) and only afterwards fold
the error links into `visited` when `-e` is set (lines 108-113). -/
def runMain (site : Site) (cfg : Config) (fuel : Nat) : Option RunResult :=
  match fetch site cfg.root_url with
  | none => none
  | some rootHtml =>
    let st := crawl site cfg fuel (initState cfg rootHtml)
    let fileUrls : Option (List String) :=
      match cfg.output_file with
      | none => none
      | some OutputFormat.plainText => some st.visited
      | some OutputFormat.json => some st.visited
    let finalVisited := if cfg.response_error then foldErrors st else st.visited
    some { fileUrls := fileUrls, finalVisited := finalVisited,
           error_links := st.error_links }

/-!
Concrete sites used by counterexamples and witnesses.
-/

/-- The spec's end-to-end site: the root links to `/a`; `/a` links back to
the root (a cycle) and to an out-of-domain page. -/
def exSite : Site :=
  [("https://example.com/", some [some "/a"]),
   ("https://example.com/a", some [some "https://example.com/", some "https://other.com/x"])]

def exConfig : Config :=
  { root_url := "https://example.com/", depth := 0, verbose := false,
    response_error := false, output_file := none }

/-- A site with one failing link: the root links to `/a` (fetches fine) and
to `/bad`, whose fetch fails. -/
def errSite : Site :=
  [("https://example.com/", some [some "/a", some "/bad"]),
   ("https://example.com/a", some []),
   ("https://example.com/bad", none)]

def errConfig : Config :=
  { root_url := "https://example.com/", depth := 0, verbose := false,
    response_error := true, output_file := some OutputFormat.plainText }

/-- All hrefs of a page resolved against its URL. -/
def resolvedAll (html : Html) (url : String) : List String :=
  (html.filterMap id).map (get_url url)

/-- Every link any page of the site can contribute to a frontier. -/
def allSiteLinks (site : Site) : List String :=
  site.flatMap (fun p => match p.2 with | some h => resolvedAll h p.1 | none => [])

/-- Whether a URL is already accounted for: in the visited set or in the
error set. -/
def unionB (st : CrawlState) (u : String) : Bool :=
  st.visited.contains u || st.error_links.contains u

/-- The termination measure: how many of the site's links are not yet
accounted for. -/
def pending (U : List String) (st : CrawlState) : Nat :=
  (U.filter (fun u => !(unionB st u))).length

/-- The crawl loop's set invariant: `visited` and `error_links` are
duplicate-free, and no error link is simultaneously visited. -/
def SetsInv (st : CrawlState) : Prop :=
  st.visited.Nodup ∧ st.error_links.Nodup ∧ ∀ u ∈ st.error_links, u ∉ st.visited

/-!
Helper lemmas about the engine.
-/

theorem processLink_err {site cfg st link} (h : st.error_links.contains link = true) :
    processLink site cfg st link = { st with visited := hsRemove st.visited link } := by
  unfold processLink
  rw [if_pos h]

theorem processLink_skip {site cfg st link} (h1 : st.error_links.contains link = false)
    (h2 : (st.visited.contains link || !is_same_domain cfg.root_url link
      || depth_control link cfg.depth) = true) :
    processLink site cfg st link = { st with visited := hsInsert st.visited link } := by
  unfold processLink
  rw [if_neg (by rw [h1]; simp), if_pos h2]

theorem processLink_fetch_ok {site cfg st link html}
    (h1 : st.error_links.contains link = false)
    (h2 : (st.visited.contains link || !is_same_domain cfg.root_url link
      || depth_control link cfg.depth) = false)
    (h3 : fetch site link = some html) :
    processLink site cfg st link =
      { st with visited := hsInsert st.visited link,
                to_visit := get_links html link st.to_visit } := by
  unfold processLink
  rw [if_neg (by rw [h1]; simp), if_neg (by rw [h2]; simp), h3]

theorem processLink_fetch_fail {site cfg st link}
    (h1 : st.error_links.contains link = false)
    (h2 : (st.visited.contains link || !is_same_domain cfg.root_url link
      || depth_control link cfg.depth) = false)
    (h3 : fetch site link = none) :
    processLink site cfg st link =
      { st with visited := hsRemove st.visited link,
                error_links := st.error_links ++ [link] } := by
  unfold processLink
  rw [if_neg (by rw [h1]; simp), if_neg (by rw [h2]; simp), h3]

theorem crawl_succ (site : Site) (cfg : Config) (n : Nat) (st : CrawlState) :
    crawl site cfg (n + 1) st =
      if st.to_visit.isEmpty then st else crawl site cfg n (processLayer site cfg st) := rfl

theorem crawl_of_empty (site : Site) (cfg : Config) (n : Nat) (st : CrawlState)
    (h : st.to_visit = []) : crawl site cfg n st = st := by
  induction n with
  | zero => rfl
  | succ n _ => rw [crawl_succ, if_pos (by simp [h])]

theorem crawl_add (site : Site) (cfg : Config) :
    ∀ (m n : Nat) (st : CrawlState),
      crawl site cfg (m + n) st = crawl site cfg n (crawl site cfg m st) := by
  intro m
  induction m with
  | zero => intro n st; rw [Nat.zero_add]; rfl
  | succ m ih =>
    intro n st
    rw [Nat.succ_add, crawl_succ, crawl_succ]
    by_cases h : st.to_visit.isEmpty
    · rw [if_pos h, if_pos h, crawl_of_empty site cfg n st (by simpa using h)]
    · rw [if_neg h, if_neg h, ih]

/-- `get_links` preserves freedom from duplicates of the shared results
vector: it only appends URLs not already present. -/
theorem get_links_nodup (html : Html) (url : String) :
    ∀ acc : List String, acc.Nodup → (get_links html url acc).Nodup := by
  induction html with
  | nil => intro acc h; exact h
  | cons a t ih =>
    intro acc h
    cases a with
    | none => exact ih acc h
    | some val =>
      show (get_links t url
        (if acc.contains (get_url url val) then acc else acc ++ [get_url url val])).Nodup
      by_cases hc : acc.contains (get_url url val) = true
      · rw [if_pos hc]; exact ih acc h
      · rw [if_neg hc]
        refine ih _ ?_
        have hmem : get_url url val ∉ acc := by
          intro hm
          exact hc (by simpa using hm)
        simp [List.nodup_append, h, hmem]

theorem processLink_todo_nodup {site cfg st link} (h : st.to_visit.Nodup) :
    (processLink site cfg st link).to_visit.Nodup := by
  by_cases h1 : st.error_links.contains link = true
  · rw [processLink_err h1]; exact h
  · have h1' : st.error_links.contains link = false := by simpa using h1
    by_cases h2 : (st.visited.contains link || !is_same_domain cfg.root_url link
        || depth_control link cfg.depth) = true
    · rw [processLink_skip h1' h2]; exact h
    · have h2' : (st.visited.contains link || !is_same_domain cfg.root_url link
          || depth_control link cfg.depth) = false := by simpa using h2
      cases h3 : fetch site link with
      | some html => rw [processLink_fetch_ok h1' h2' h3]; exact get_links_nodup _ _ _ h
      | none => rw [processLink_fetch_fail h1' h2' h3]; exact h

theorem foldl_processLink_todo_nodup (site : Site) (cfg : Config) :
    ∀ (l : List String) (st : CrawlState), st.to_visit.Nodup →
      (l.foldl (processLink site cfg) st).to_visit.Nodup := by
  intro l
  induction l with
  | nil => intro st h; exact h
  | cons a t ih => intro st h; exact ih _ (processLink_todo_nodup h)

/-!
Termination machinery. Every URL a frontier can ever contain is a resolved
link of some page of the (finite) site, and each layer that keeps the crawl
going fetches at least one URL that was neither visited nor failed before —
so the number of site links outside `visited ∪ error_links` is a strictly
decreasing measure across productive layers.
-/

theorem resolvedAll_cons_some (val : String) (t : Html) (url : String) :
    resolvedAll (some val :: t) url = get_url url val :: resolvedAll t url := rfl

theorem resolvedAll_cons_none (t : Html) (url : String) :
    resolvedAll (none :: t) url = resolvedAll t url := rfl

/-- Membership in a `get_links` result: either already in the shared vector
or a resolved link of the page. -/
theorem mem_get_links (url : String) :
    ∀ (html : Html) (acc : List String) (x : String),
      x ∈ get_links html url acc ↔ x ∈ acc ∨ x ∈ resolvedAll html url := by
  intro html
  induction html with
  | nil =>
    intro acc x
    simp [get_links, resolvedAll]
  | cons a t ih =>
    intro acc x
    cases a with
    | none =>
      show x ∈ get_links t url acc ↔ _
      rw [ih, resolvedAll_cons_none]
    | some val =>
      show x ∈ get_links t url
        (if acc.contains (get_url url val) then acc else acc ++ [get_url url val]) ↔ _
      by_cases hc : acc.contains (get_url url val) = true
      · have hmem : get_url url val ∈ acc := by simpa using hc
        rw [if_pos hc, ih, resolvedAll_cons_some]
        constructor
        · rintro (h | h)
          · exact Or.inl h
          · exact Or.inr (List.mem_cons_of_mem _ h)
        · rintro (h | h)
          · exact Or.inl h
          · rcases List.mem_cons.mp h with h | h
            · exact Or.inl (h ▸ hmem)
            · exact Or.inr h
      · rw [if_neg hc, ih, resolvedAll_cons_some]
        simp [List.mem_append]
        tauto

/-- A successfully fetched page's resolved links are site links. -/
theorem resolvedAll_sub_allSiteLinks {site : Site} {link : String} {html : Html}
    (h : fetch site link = some html) :
    ∀ x ∈ resolvedAll html link, x ∈ allSiteLinks site := by
  unfold fetch at h
  cases hf : site.find? (fun p => p.1 == link) with
  | none => rw [hf] at h; cases h
  | some p =>
    rw [hf] at h
    have h2 : p.2 = some html := h
    have hp : p ∈ site := List.mem_of_find?_eq_some hf
    have hpl : p.1 = link := by simpa using List.find?_some hf
    intro x hx
    unfold allSiteLinks
    refine List.mem_flatMap.mpr ⟨p, hp, ?_⟩
    rw [h2, hpl]
    exact hx

theorem unionB_iff {st : CrawlState} {u : String} :
    unionB st u = true ↔ u ∈ st.visited ∨ u ∈ st.error_links := by
  simp [unionB]

theorem length_filter_monotone {α : Type} (l : List α) (p q : α → Bool)
    (h : ∀ x, q x = true → p x = true) :
    (l.filter q).length ≤ (l.filter p).length := by
  induction l with
  | nil => simp
  | cons a t ih =>
    by_cases hq : q a = true
    · rw [List.filter_cons_of_pos hq, List.filter_cons_of_pos (h a hq)]
      simpa using ih
    · rw [List.filter_cons_of_neg hq]
      by_cases hp : p a = true
      · rw [List.filter_cons_of_pos hp]
        exact Nat.le_succ_of_le ih
      · rw [List.filter_cons_of_neg hp]
        exact ih

theorem length_filter_strict {α : Type} (l : List α) (p q : α → Bool)
    (h : ∀ x, q x = true → p x = true) (u : α) (hu : u ∈ l)
    (hup : p u = true) (huq : q u = false) :
    (l.filter q).length < (l.filter p).length := by
  induction l with
  | nil => cases hu
  | cons a t ih =>
    rcases List.mem_cons.mp hu with rfl | hut
    · rw [List.filter_cons_of_neg (by simp [huq]), List.filter_cons_of_pos hup]
      exact Nat.lt_succ_of_le (length_filter_monotone t p q h)
    · by_cases hq : q a = true
      · rw [List.filter_cons_of_pos hq, List.filter_cons_of_pos (h a hq)]
        exact Nat.succ_lt_succ (ih hut)
      · rw [List.filter_cons_of_neg hq]
        by_cases hp : p a = true
        · rw [List.filter_cons_of_pos hp]
          exact Nat.lt_succ_of_lt (ih hut)
        · rw [List.filter_cons_of_neg hp]
          exact ih hut

theorem mem_hsInsert {s : List String} {x y : String} :
    y ∈ hsInsert s x ↔ y ∈ s ∨ y = x := by
  unfold hsInsert
  by_cases h : s.contains x = true
  · rw [if_pos h]
    have hx : x ∈ s := by simpa using h
    constructor
    · exact Or.inl
    · rintro (h' | rfl)
      · exact h'
      · exact hx
  · rw [if_neg h]
    simp [List.mem_append]

theorem mem_hsRemove {s : List String} {x y : String} :
    y ∈ hsRemove s x ↔ y ∈ s ∧ y ≠ x := by
  simp [hsRemove, List.mem_filter, bne_iff_ne]

/-- Once a URL is in `visited ∪ error_links`, processing any link keeps it
there: the two removals at lines 53 and 78 only happen when the URL is (or
just became) an error link. -/
theorem mem_union_processLink {site cfg st link} {u : String}
    (h : u ∈ st.visited ∨ u ∈ st.error_links) :
    u ∈ (processLink site cfg st link).visited ∨
      u ∈ (processLink site cfg st link).error_links := by
  by_cases h1 : st.error_links.contains link = true
  · rw [processLink_err h1]
    rcases h with h | h
    · by_cases he : u = link
      · exact Or.inr (by simpa [he] using h1)
      · exact Or.inl (mem_hsRemove.mpr ⟨h, he⟩)
    · exact Or.inr h
  · have h1' : st.error_links.contains link = false := by simpa using h1
    by_cases h2 : (st.visited.contains link || !is_same_domain cfg.root_url link
        || depth_control link cfg.depth) = true
    · rw [processLink_skip h1' h2]
      rcases h with h | h
      · exact Or.inl (mem_hsInsert.mpr (Or.inl h))
      · exact Or.inr h
    · have h2' : (st.visited.contains link || !is_same_domain cfg.root_url link
          || depth_control link cfg.depth) = false := by simpa using h2
      cases h3 : fetch site link with
      | some html =>
        rw [processLink_fetch_ok h1' h2' h3]
        rcases h with h | h
        · exact Or.inl (mem_hsInsert.mpr (Or.inl h))
        · exact Or.inr h
      | none =>
        rw [processLink_fetch_fail h1' h2' h3]
        rcases h with h | h
        · by_cases he : u = link
          · exact Or.inr (by simp [he])
          · exact Or.inl (mem_hsRemove.mpr ⟨h, he⟩)
        · exact Or.inr (List.mem_append_left _ h)

/-- When the loop body reaches the fetch, the link was not yet accounted for,
and afterwards it is: each URL is fetched at most once per run. -/
theorem processLink_fetch_event {site cfg st link}
    (h1 : st.error_links.contains link = false)
    (h2 : (st.visited.contains link || !is_same_domain cfg.root_url link
      || depth_control link cfg.depth) = false) :
    (link ∉ st.visited ∧ link ∉ st.error_links) ∧
    (link ∈ (processLink site cfg st link).visited ∨
      link ∈ (processLink site cfg st link).error_links) := by
  have hv : st.visited.contains link = false := by
    cases hvv : st.visited.contains link
    · rfl
    · rw [hvv] at h2; simp at h2
  refine ⟨⟨by simpa using hv, by simpa using h1⟩, ?_⟩
  cases h3 : fetch site link with
  | some html =>
    rw [processLink_fetch_ok h1 h2 h3]
    exact Or.inl (mem_hsInsert.mpr (Or.inr rfl))
  | none =>
    rw [processLink_fetch_fail h1 h2 h3]
    exact Or.inr (by simp)

theorem unionB_mono_processLink {site cfg st link} (u : String)
    (h : unionB st u = true) : unionB (processLink site cfg st link) u = true :=
  unionB_iff.mpr (mem_union_processLink (unionB_iff.mp h))

theorem pending_le_processLink {U : List String} {site cfg st link} :
    pending U (processLink site cfg st link) ≤ pending U st := by
  refine length_filter_monotone U _ _ ?_
  intro x hx
  cases hu : unionB st x
  · simp
  · have := @unionB_mono_processLink site cfg st link x hu
    rw [this] at hx
    simp at hx

/-- Folding a layer never increases the measure, and strictly decreases it
whenever the frontier changed (which requires at least one fetch). -/
theorem foldl_measure (site : Site) (cfg : Config) (U : List String) :
    ∀ (l : List String) (st : CrawlState), (∀ x ∈ l, x ∈ U) →
      pending U (l.foldl (processLink site cfg) st) ≤ pending U st ∧
      ((l.foldl (processLink site cfg) st).to_visit ≠ st.to_visit →
        pending U (l.foldl (processLink site cfg) st) < pending U st) := by
  intro l
  induction l with
  | nil =>
    intro st _
    exact ⟨Nat.le_refl _, fun h => absurd rfl h⟩
  | cons a t ih =>
    intro st hl
    have haU : a ∈ U := hl a (List.mem_cons_self a t)
    have hlt : ∀ x ∈ t, x ∈ U := fun x hx => hl x (List.mem_cons_of_mem _ hx)
    obtain ⟨ihle, ihlt⟩ := ih (processLink site cfg st a) hlt
    by_cases h1 : st.error_links.contains a = true
    · have hto : (processLink site cfg st a).to_visit = st.to_visit := by
        rw [processLink_err h1]
      refine ⟨Nat.le_trans ihle pending_le_processLink, fun hne => ?_⟩
      rw [List.foldl_cons] at hne
      exact Nat.lt_of_lt_of_le (ihlt (fun h => hne (h.trans hto)))
        pending_le_processLink
    · have h1' : st.error_links.contains a = false := by simpa using h1
      by_cases h2 : (st.visited.contains a || !is_same_domain cfg.root_url a
          || depth_control a cfg.depth) = true
      · have hto : (processLink site cfg st a).to_visit = st.to_visit := by
          rw [processLink_skip h1' h2]
        refine ⟨Nat.le_trans ihle pending_le_processLink, fun hne => ?_⟩
        rw [List.foldl_cons] at hne
        exact Nat.lt_of_lt_of_le (ihlt (fun h => hne (h.trans hto)))
          pending_le_processLink
      · have h2' : (st.visited.contains a || !is_same_domain cfg.root_url a
            || depth_control a cfg.depth) = false := by simpa using h2
        obtain ⟨⟨hnv, hne⟩, hafter⟩ := @processLink_fetch_event site cfg st a h1' h2'
        have hstrict : pending U (processLink site cfg st a) < pending U st := by
          refine length_filter_strict U _ _ ?_ a haU ?_ ?_
          · intro x hx
            cases hu : unionB st x
            · simp
            · have := @unionB_mono_processLink site cfg st a x hu
              rw [this] at hx
              simp at hx
          · have : unionB st a = false := by
              cases hu : unionB st a
              · rfl
              · exact absurd (unionB_iff.mp hu) (by simp [hnv, hne])
            simp [this]
          · have : unionB (processLink site cfg st a) a = true := unionB_iff.mpr hafter
            simp [this]
        exact ⟨Nat.le_of_lt (Nat.lt_of_le_of_lt ihle hstrict),
          fun _ => Nat.lt_of_le_of_lt ihle hstrict⟩

/-- The frontier only ever holds site links. -/
theorem foldl_todo_sub (site : Site) (cfg : Config) :
    ∀ (l : List String) (st : CrawlState),
      (∀ x ∈ st.to_visit, x ∈ allSiteLinks site) →
      ∀ x ∈ (l.foldl (processLink site cfg) st).to_visit, x ∈ allSiteLinks site := by
  intro l
  induction l with
  | nil => intro st h; exact h
  | cons a t ih =>
    intro st h
    refine ih (processLink site cfg st a) ?_
    by_cases h1 : st.error_links.contains a = true
    · rw [processLink_err h1]; exact h
    · have h1' : st.error_links.contains a = false := by simpa using h1
      by_cases h2 : (st.visited.contains a || !is_same_domain cfg.root_url a
          || depth_control a cfg.depth) = true
      · rw [processLink_skip h1' h2]; exact h
      · have h2' : (st.visited.contains a || !is_same_domain cfg.root_url a
            || depth_control a cfg.depth) = false := by simpa using h2
        cases h3 : fetch site a with
        | some html =>
          rw [processLink_fetch_ok h1' h2' h3]
          intro x hx
          rcases (mem_get_links a html st.to_visit x).mp hx with hx | hx
          · exact h x hx
          · exact resolvedAll_sub_allSiteLinks h3 x hx
        | none =>
          rw [processLink_fetch_fail h1' h2' h3]; exact h

/-- Fuel `pending`-many productive layers always suffices: the crawl loop
reaches an empty frontier. -/
theorem crawl_terminates_of (site : Site) (cfg : Config) :
    ∀ (k : Nat) (st : CrawlState), pending (allSiteLinks site) st ≤ k →
      (∀ x ∈ st.to_visit, x ∈ allSiteLinks site) →
      ∃ n, (crawl site cfg n st).to_visit = [] := by
  intro k
  induction k with
  | zero =>
    intro st hm hsub
    by_cases hempty : st.to_visit = []
    · exact ⟨0, hempty⟩
    · by_cases hempty' : (processLayer site cfg st).to_visit = []
      · refine ⟨2, ?_⟩
        rw [crawl_succ, if_neg (by simp [hempty]), crawl_of_empty _ _ _ _ hempty']
        exact hempty'
      · exfalso
        have hmeas := (foldl_measure site cfg (allSiteLinks site) st.to_visit
          { st with to_visit := [] } hsub).2
        have hlt : pending (allSiteLinks site) (processLayer site cfg st) <
            pending (allSiteLinks site) ({ st with to_visit := [] } : CrawlState) :=
          hmeas (by simpa [processLayer] using hempty')
        have hpe : pending (allSiteLinks site) ({ st with to_visit := [] } : CrawlState) =
            pending (allSiteLinks site) st := rfl
        omega
  | succ k ih =>
    intro st hm hsub
    by_cases hempty : st.to_visit = []
    · exact ⟨0, hempty⟩
    · have hsub' : ∀ x ∈ (processLayer site cfg st).to_visit, x ∈ allSiteLinks site := by
        have := foldl_todo_sub site cfg st.to_visit ({ st with to_visit := [] } : CrawlState)
          (by intro x hx; simp at hx)
        simpa [processLayer] using this
      by_cases hempty' : (processLayer site cfg st).to_visit = []
      · refine ⟨2, ?_⟩
        rw [crawl_succ, if_neg (by simp [hempty]), crawl_of_empty _ _ _ _ hempty']
        exact hempty'
      · have hmeas := (foldl_measure site cfg (allSiteLinks site) st.to_visit
          { st with to_visit := [] } hsub).2
        have hlt : pending (allSiteLinks site) (processLayer site cfg st) <
            pending (allSiteLinks site) ({ st with to_visit := [] } : CrawlState) :=
          hmeas (by simpa [processLayer] using hempty')
        have hpe : pending (allSiteLinks site) ({ st with to_visit := [] } : CrawlState) =
            pending (allSiteLinks site) st := rfl
        obtain ⟨n, hn⟩ := ih (processLayer site cfg st) (by omega) hsub'
        refine ⟨n + 1, ?_⟩
        rw [crawl_succ, if_neg (by simp [hempty])]
        exact hn

/-!
Claim theorems.
-/

/-- Claim C1, counterexample. On the spec's end-to-end site (root linking to
`/a`; `/a` linking back to the root and to `https://other.com/x`) with
`depth_limit = 0`, the out-of-domain URL `https://other.com/x` IS a member
of the final visited set, because the filter branch of the loop
(`src/src/main.rs:64-68`) inserts every domain- or depth-filtered URL into
`visited` before skipping it. This refutes the claim that the final visited
set is exactly the two in-domain pages. -/
theorem claimC1_counterexample :
    fetch exSite "https://example.com/" = some [some "/a"] ∧
    (crawl exSite exConfig 5 (initState exConfig [some "/a"])).to_visit = [] ∧
    "https://other.com/x" ∈ (crawl exSite exConfig 5 (initState exConfig [some "/a"])).visited := by
  decide

/-- Claim C1, amended: on that site the crawl terminates (for every fuel
beyond the four layers actually needed the state is unchanged, with an empty
frontier) and the final visited set is exactly
`{https://example.com/a, https://example.com/, https://other.com/x}`:
the out-of-domain URL is recorded as visited but never expanded. -/
theorem claimC1_amended :
    fetch exSite "https://example.com/" = some [some "/a"] ∧
    ∀ n : Nat, crawl exSite exConfig (n + 4) (initState exConfig [some "/a"]) =
      { visited := ["https://example.com/a", "https://example.com/", "https://other.com/x"],
        to_visit := [], error_links := [] } := by
  refine ⟨by decide, fun n => ?_⟩
  rw [Nat.add_comm, crawl_add]
  rw [show crawl exSite exConfig 4 (initState exConfig [some "/a"]) =
    { visited := ["https://example.com/a", "https://example.com/", "https://other.com/x"],
      to_visit := [], error_links := [] } from by decide]
  exact crawl_of_empty _ _ _ _ rfl

/-- Claim C2, code bug. With `-e` (include errors) and a plain-text output
file requested, `main` writes the output file from `visited` at lines 89-106
and only afterwards folds `error_links` into `visited` at lines 108-113, so
the failed URL `https://example.com/bad` is absent from the file, although
it is in the error set and in the post-fold visited set that the final log
prints. This contradicts the claimed fold-before-output order (and the help
text's promise to save error URLs). -/
theorem claimC2_bug :
    errConfig.response_error = true ∧
    errConfig.output_file = some OutputFormat.plainText ∧
    runMain errSite errConfig 5 =
      some { fileUrls := some ["https://example.com/a"],
             finalVisited := ["https://example.com/a", "https://example.com/bad"],
             error_links := ["https://example.com/bad"] } ∧
    "https://example.com/bad" ∉ ["https://example.com/a"] := by
  decide

/-- Claim C4, counterexample. When BOTH arguments fail to parse,
`is_same_domain` compares `None == None` and returns `true`, refuting the
claim that it returns `false` in every case where either argument fails to
parse. -/
theorem claimC4_counterexample :
    parseUrl "notaurl" = none ∧ parseUrl "alsonotaurl" = none ∧
    is_same_domain "notaurl" "alsonotaurl" = true := by
  decide

/-- Claim C4, amended: `is_same_domain` returns `true` iff the optional
parsed hosts are equal — when both URLs parse, true iff the host strings are
equal; when exactly one fails to parse, false; but when both fail to parse,
true (`None == None`). -/
theorem claimC4_amended :
    (∀ root candidate ur uc, parseUrl root = some ur → parseUrl candidate = some uc →
      (is_same_domain root candidate = true ↔ ur.host = uc.host)) ∧
    (∀ root candidate ur, parseUrl root = some ur → parseUrl candidate = none →
      is_same_domain root candidate = false) ∧
    (∀ root candidate uc, parseUrl root = none → parseUrl candidate = some uc →
      is_same_domain root candidate = false) ∧
    (∀ root candidate, parseUrl root = none → parseUrl candidate = none →
      is_same_domain root candidate = true) := by
  refine ⟨?_, ?_, ?_, ?_⟩ <;>
    · intro root candidate
      intros
      simp_all [is_same_domain]

/-- Claim C4, witness for the amended theorem: a same-host pair, the two
one-sided parse failures, and the both-fail case, each obtained from
`claimC4_amended`. -/
theorem claimC4_witness :
    is_same_domain "https://example.com/" "https://example.com/a" = true ∧
    is_same_domain "https://example.com/" "notaurl" = false ∧
    is_same_domain "notaurl" "https://example.com/" = false ∧
    is_same_domain "nota" "urlb" = true := by
  refine ⟨?_, ?_, ?_, ?_⟩
  · exact (claimC4_amended.1 _ _
      { scheme := "https", host := "example.com", path_segments := some [""] }
      { scheme := "https", host := "example.com", path_segments := some ["a"] }
      (by decide) (by decide)).mpr rfl
  · exact claimC4_amended.2.1 _ _
      { scheme := "https", host := "example.com", path_segments := some [""] }
      (by decide) (by decide)
  · exact claimC4_amended.2.2.1 _ _
      { scheme := "https", host := "example.com", path_segments := some [""] }
      (by decide) (by decide)
  · exact claimC4_amended.2.2.2 _ _ (by decide) (by decide)

/-- Claim C5, confirmed. `depth_control url 0` is always false; for a
non-zero limit a parse failure yields false; and for a parsed URL the result
is true exactly when the number of non-empty path segments equals the limit
(so a strictly greater count yields false). -/
theorem claimC5 (url : String) (d : Int) :
    depth_control url 0 = false ∧
    (d ≠ 0 → parseUrl url = none → depth_control url d = false) ∧
    (d ≠ 0 → ∀ u segs, parseUrl url = some u → u.path_segments = some segs →
      (depth_control url d = true ↔
        ((segs.filter (fun s => !s.isEmpty)).length : Int) = d)) := by
  refine ⟨by simp [depth_control], ?_, ?_⟩
  · intro hd hp
    simp [depth_control, hp, hd]
  · intro hd u segs hp hs
    simp [depth_control, hp, hs, hd]

/-- Claim C5, witness: depth 0 is unlimited; an unparseable candidate does
not exceed; a segment count equal to the limit triggers the cutoff; a count
one above the limit does not. -/
theorem claimC5_witness :
    depth_control "https://example.com/a/b" 0 = false ∧
    depth_control "notaurl" 2 = false ∧
    depth_control "https://example.com/a/b" 2 = true ∧
    depth_control "https://example.com/a/b/c" 2 = false := by
  refine ⟨(claimC5 "https://example.com/a/b" 0).1,
    (claimC5 "notaurl" 2).2.1 (by decide) (by decide), ?_, ?_⟩
  · exact ((claimC5 "https://example.com/a/b" 2).2.2 (by decide)
      { scheme := "https", host := "example.com", path_segments := some ["a", "b"] }
      ["a", "b"] (by decide) rfl).mpr (by decide)
  · have h := (claimC5 "https://example.com/a/b/c" 2).2.2 (by decide)
      { scheme := "https", host := "example.com", path_segments := some ["a", "b", "c"] }
      ["a", "b", "c"] (by decide) rfl
    rw [Bool.eq_false_iff]
    intro hc
    exact absurd (h.mp hc) (by decide)

/-- Claim C6, confirmed. For every finite site (cycles included) whose root
fetch succeeds, the layer loop reaches an empty frontier after finitely many
layers, and from then on the state never changes: each URL is fetched at
most once, guarded by the visited and error sets, so the number of
unaccounted site links strictly decreases across productive layers. -/
theorem claimC6 (site : Site) (cfg : Config) (rootHtml : Html)
    (h : fetch site cfg.root_url = some rootHtml) :
    ∃ n, (crawl site cfg n (initState cfg rootHtml)).to_visit = [] ∧
      ∀ m, crawl site cfg (n + m) (initState cfg rootHtml) =
        crawl site cfg n (initState cfg rootHtml) := by
  have hsub : ∀ x ∈ (initState cfg rootHtml).to_visit, x ∈ allSiteLinks site := by
    intro x hx
    have hx' : x ∈ get_links rootHtml cfg.root_url [] := hx
    rcases (mem_get_links cfg.root_url rootHtml [] x).mp hx' with hx'' | hx''
    · cases hx''
    · exact resolvedAll_sub_allSiteLinks h x hx''
  obtain ⟨n, hn⟩ := crawl_terminates_of site cfg
    (pending (allSiteLinks site) (initState cfg rootHtml)) (initState cfg rootHtml)
    (Nat.le_refl _) hsub
  refine ⟨n, hn, fun m => ?_⟩
  rw [crawl_add, crawl_of_empty _ _ _ _ hn]

/-- Claim C6, witness: the example site contains the cycle root → `/a` →
root, and its crawl terminates. -/
theorem claimC6_witness :
    fetch exSite exConfig.root_url = some [some "/a"] ∧
    ∃ n, (crawl exSite exConfig n (initState exConfig [some "/a"])).to_visit = [] ∧
      ∀ m, crawl exSite exConfig (n + m) (initState exConfig [some "/a"]) =
        crawl exSite exConfig n (initState exConfig [some "/a"]) :=
  ⟨by decide, claimC6 exSite exConfig [some "/a"] (by decide)⟩

/-!
Invariants for claim C3: the visited and error sets are duplicate-free and
mutually exclusive throughout the run.
-/

theorem hsInsert_nodup {s : List String} {x : String} (h : s.Nodup) :
    (hsInsert s x).Nodup := by
  unfold hsInsert
  by_cases hc : s.contains x = true
  · rw [if_pos hc]; exact h
  · rw [if_neg hc]
    have : x ∉ s := by simpa using hc
    simp [List.nodup_append, h, this]

theorem hsRemove_nodup {s : List String} {x : String} (h : s.Nodup) :
    (hsRemove s x).Nodup := List.Nodup.filter _ h

theorem setsInv_processLink {site cfg st link} (h : SetsInv st) :
    SetsInv (processLink site cfg st link) := by
  obtain ⟨hv, he, hd⟩ := h
  by_cases h1 : st.error_links.contains link = true
  · rw [processLink_err h1]
    exact ⟨hsRemove_nodup hv, he, fun u hu hm => hd u hu (mem_hsRemove.mp hm).1⟩
  · have h1' : st.error_links.contains link = false := by simpa using h1
    have hnl : link ∉ st.error_links := by simpa using h1'
    by_cases h2 : (st.visited.contains link || !is_same_domain cfg.root_url link
        || depth_control link cfg.depth) = true
    · rw [processLink_skip h1' h2]
      refine ⟨hsInsert_nodup hv, he, fun u hu hm => ?_⟩
      rcases mem_hsInsert.mp hm with hm | rfl
      · exact hd u hu hm
      · exact hnl hu
    · have h2' : (st.visited.contains link || !is_same_domain cfg.root_url link
          || depth_control link cfg.depth) = false := by simpa using h2
      cases h3 : fetch site link with
      | some html =>
        rw [processLink_fetch_ok h1' h2' h3]
        refine ⟨hsInsert_nodup hv, he, fun u hu hm => ?_⟩
        rcases mem_hsInsert.mp hm with hm | rfl
        · exact hd u hu hm
        · exact hnl hu
      | none =>
        rw [processLink_fetch_fail h1' h2' h3]
        refine ⟨hsRemove_nodup hv, by simp [List.nodup_append, he, hnl], ?_⟩
        intro u hu hm
        obtain ⟨hm', hne⟩ := mem_hsRemove.mp hm
        rcases List.mem_append.mp hu with hu | hu
        · exact hd u hu hm'
        · exact hne (by simpa using hu)

theorem setsInv_foldl (site : Site) (cfg : Config) :
    ∀ (l : List String) (st : CrawlState), SetsInv st →
      SetsInv (l.foldl (processLink site cfg) st) := by
  intro l
  induction l with
  | nil => intro st h; exact h
  | cons a t ih => intro st h; exact ih _ (setsInv_processLink h)

theorem setsInv_crawl (site : Site) (cfg : Config) :
    ∀ (n : Nat) (st : CrawlState), SetsInv st →
      SetsInv (crawl site cfg n st) := by
  intro n
  induction n with
  | zero => intro st h; exact h
  | succ n ih =>
    intro st h
    rw [crawl_succ]
    by_cases hempty : st.to_visit.isEmpty
    · rw [if_pos hempty]; exact h
    · rw [if_neg hempty]
      exact ih _ (setsInv_foldl site cfg _ _ h)

theorem mem_foldl_hsInsert_init :
    ∀ (l s : List String) (x : String), x ∈ s → x ∈ l.foldl hsInsert s := by
  intro l
  induction l with
  | nil => intro s x h; exact h
  | cons a t ih => intro s x h; exact ih _ x (mem_hsInsert.mpr (Or.inl h))

theorem mem_foldl_hsInsert_of_mem :
    ∀ (l s : List String) (x : String), x ∈ l → x ∈ l.foldl hsInsert s := by
  intro l
  induction l with
  | nil => intro s x h; cases h
  | cons a t ih =>
    intro s x h
    rcases List.mem_cons.mp h with rfl | h
    · exact mem_foldl_hsInsert_init t _ x (mem_hsInsert.mpr (Or.inr rfl))
    · exact ih _ x h

theorem foldl_hsInsert_nodup :
    ∀ (l s : List String), s.Nodup → (l.foldl hsInsert s).Nodup := by
  intro l
  induction l with
  | nil => intro s h; exact h
  | cons a t ih => intro s h; exact ih _ (hsInsert_nodup h)

/-- Claim C3, confirmed. (1) Each loop-body step preserves the set
invariant, so error-set and visited-set membership are mutually exclusive
throughout the traversal. (2) At the end of any run, a URL in the error set
is not in the visited set, and after the `-e` fold it occurs in the final
output exactly once, no matter how many layers referenced it. -/
theorem claimC3 :
    (∀ (site : Site) (cfg : Config) (st : CrawlState) (link : String),
      SetsInv st → SetsInv (processLink site cfg st link)) ∧
    (∀ (site : Site) (cfg : Config) (rootHtml : Html) (n : Nat) (u : String),
      u ∈ (crawl site cfg n (initState cfg rootHtml)).error_links →
        u ∉ (crawl site cfg n (initState cfg rootHtml)).visited ∧
        (foldErrors (crawl site cfg n (initState cfg rootHtml))).count u = 1) := by
  refine ⟨fun site cfg st link h => setsInv_processLink h, ?_⟩
  intro site cfg rootHtml n u hu
  have hinv : SetsInv (crawl site cfg n (initState cfg rootHtml)) :=
    setsInv_crawl site cfg n _
      ⟨List.nodup_nil, List.nodup_nil, fun u hu => absurd hu (List.not_mem_nil u)⟩
  obtain ⟨hv, he, hd⟩ := hinv
  refine ⟨hd u hu, ?_⟩
  have hmem : u ∈ foldErrors (crawl site cfg n (initState cfg rootHtml)) :=
    mem_foldl_hsInsert_of_mem _ _ u hu
  have hnd : (foldErrors (crawl site cfg n (initState cfg rootHtml))).Nodup :=
    foldl_hsInsert_nodup _ _ hv
  exact List.count_eq_one_of_mem hnd hmem

/-- Claim C3, witness: the failing URL of the error site is in the error
set, absent from the visited set at the end of traversal, and present
exactly once in the `-e`-folded output; and a concrete loop-body step
preserves the set invariant. -/
theorem claimC3_witness :
    SetsInv (processLink errSite errConfig
      { visited := [], to_visit := [], error_links := [] } "https://example.com/bad") ∧
    ("https://example.com/bad" ∉
      (crawl errSite errConfig 5 (initState errConfig [some "/a", some "/bad"])).visited ∧
    (foldErrors (crawl errSite errConfig 5
      (initState errConfig [some "/a", some "/bad"]))).count "https://example.com/bad" = 1) := by
  refine ⟨claimC3.1 errSite errConfig _ _ ⟨List.nodup_nil, List.nodup_nil, by simp⟩, ?_⟩
  exact claimC3.2 errSite errConfig [some "/a", some "/bad"] 5 "https://example.com/bad"
    (by decide)

/-- Claim C7, confirmed. (1) When a link reaches the fetch and the fetch
fails, the loop body records the link in the error set, removes it from the
visited set, and leaves the frontier alone — the error is absorbed, not
propagated. (2) Processing a layer continues with the rest of the links
after any link, failures included. (3) A link already in the error set is
never re-fetched: the loop body's result does not depend on the site at all
and only removes stale visited membership. -/
theorem claimC7 :
    (∀ site cfg st link,
      st.error_links.contains link = false →
      st.visited.contains link = false →
      is_same_domain cfg.root_url link = true →
      depth_control link cfg.depth = false →
      fetch site link = none →
      processLink site cfg st link =
        { st with visited := hsRemove st.visited link,
                  error_links := st.error_links ++ [link] }) ∧
    (∀ site cfg st link rest,
      List.foldl (processLink site cfg) st (link :: rest) =
        List.foldl (processLink site cfg) (processLink site cfg st link) rest) ∧
    (∀ site site2 cfg st link,
      st.error_links.contains link = true →
      processLink site cfg st link = processLink site2 cfg st link ∧
      processLink site cfg st link = { st with visited := hsRemove st.visited link }) := by
  refine ⟨?_, ?_, ?_⟩
  · intro site cfg st link h1 h2 h3 h4 h5
    exact processLink_fetch_fail h1 (by rw [h2, h3, h4]; simp) h5
  · intro site cfg st link rest
    rfl
  · intro site site2 cfg st link h
    exact ⟨(processLink_err h).trans (processLink_err h).symm, processLink_err h⟩

/-- Claim C7, witness: a concrete failing fetch is recorded and the layer
fold steps past it; a link already in the error set is skipped identically
for two different sites. -/
theorem claimC7_witness :
    processLink errSite errConfig
        { visited := [], to_visit := [], error_links := [] }
        "https://example.com/bad" =
      { visited := [], to_visit := [], error_links := ["https://example.com/bad"] } ∧
    processLink errSite errConfig
        { visited := ["https://example.com/bad"], to_visit := [],
          error_links := ["https://example.com/bad"] } "https://example.com/bad" =
      processLink exSite errConfig
        { visited := ["https://example.com/bad"], to_visit := [],
          error_links := ["https://example.com/bad"] } "https://example.com/bad" := by
  refine ⟨?_, ?_⟩
  · exact (claimC7.1 errSite errConfig _ _ (by decide) (by decide) (by decide)
      (by decide) (by decide)).trans (by decide)
  · exact (claimC7.2.2 errSite exSite errConfig _ _ (by decide)).1

/-- Claim C8, confirmed. `get_url` is a total function (it can signal no
failure); whenever the href is not already absolute and parse-and-join
fails, it returns the naive concatenation: `root` with at most one trailing
`/` removed, then `/`, then `sub` with at most one leading `/` removed. -/
theorem claimC8 (root sub : String)
    (h1 : Str.startsWith sub "https://" = false)
    (h2 : Str.startsWith sub "http://" = false)
    (h3 : (parseUrl root).bind (fun base => joinUrl base sub) = none) :
    get_url root sub = stripSuffixSlash root ++ "/" ++ stripPrefixSlash sub := by
  unfold get_url
  rw [h1, h2]
  simp only [Bool.or_self, Bool.false_eq_true, if_false, h3]

/-- Claim C8, witness: an unparseable base makes the join fail, and the
fallback concatenation strips one slash from each side. -/
theorem claimC8_witness :
    Str.startsWith "/x" "https://" = false ∧
    (parseUrl "notaurl/").bind (fun base => joinUrl base "/x") = none ∧
    get_url "notaurl/" "/x" = "notaurl/x" := by
  refine ⟨by decide, by decide, ?_⟩
  exact (claimC8 "notaurl/" "/x" (by decide) (by decide) (by decide)).trans (by decide)

/-- Claim C9, confirmed. Any href starting with `http://` or `https://` is
returned unchanged by `get_url`, for every base. -/
theorem claimC9 (root sub : String)
    (h : Str.startsWith sub "https://" = true ∨ Str.startsWith sub "http://" = true) :
    get_url root sub = sub := by
  unfold get_url
  rcases h with h | h <;> simp [h]

/-- Claim C9, witness: both schemes pass through unchanged against an
arbitrary base. -/
theorem claimC9_witness :
    get_url "https://base.com/" "http://x.com/y" = "http://x.com/y" ∧
    get_url "notaurl" "https://x.com/y" = "https://x.com/y" := by
  exact ⟨claimC9 _ _ (Or.inr (by decide)), claimC9 _ _ (Or.inl (by decide))⟩

/-- Claim C10, confirmed. `get_links` appends a resolved URL only when it is
absent from the whole shared results vector, so it preserves freedom from
duplicates; consequently the frontier a layer builds for the next layer —
starting empty and extended only by `get_links` calls on the shared vector —
never contains a duplicate URL string. -/
theorem claimC10 :
    (∀ (html : Html) (url : String) (acc : List String), acc.Nodup →
      (get_links html url acc).Nodup) ∧
    (∀ (site : Site) (cfg : Config) (st : CrawlState),
      ((processLayer site cfg st).to_visit).Nodup) := by
  refine ⟨fun html url acc h => get_links_nodup html url acc h, ?_⟩
  intro site cfg st
  exact foldl_processLink_todo_nodup site cfg st.to_visit _ List.nodup_nil

/-- Claim C10, witness: a page referencing the same URL twice (once
relatively, once absolutely) yields a duplicate-free extraction, and the
layer that processes page `/a` of the example site builds a duplicate-free
frontier. -/
theorem claimC10_witness :
    (get_links [some "/a", some "https://example.com/a"] "https://example.com/" []).Nodup ∧
    ((processLayer exSite exConfig
      { visited := [], to_visit := ["https://example.com/a"], error_links := [] }).to_visit).Nodup := by
  exact ⟨claimC10.1 _ _ [] List.nodup_nil, claimC10.2 exSite exConfig _⟩

end WebCrawler
